import Mathlib

/-!
# Verification of the proxym proxy decision engine

Shallow embedding of the proxym Go library (github.com/nezbut/proxym):
the `Proxy`/`ProxyStats` entity model, the rotation strategies
(`rotations/`), the selection strategies and filters (`selects/`),
`ResourceConfig` domain matching (`resource.go`) and the
`ProxyManagerImpl.GetNextProxy` decision engine (`manager.go`).

Proxies are shared by reference between the manager's global pool and the
resource pools, so they are modelled as identifiers into a heap
(`Heap := ProxyId → ProxyState`); pools are lists of identifiers.
The sequential behavior of each Go method is translated directly; Go's
`*http.Response`/`error` arguments of `Update` become two Booleans
("response is non-nil", "err is non-nil"), `time.Now()` becomes an
explicit clock argument, and `math/rand` becomes an explicit numeric
oracle argument.
-/

namespace Proxym

/-! ## Proxy entity (part_003: proxy.go) -/

/-- The modulus of Go's `uint`, which is 64 bits wide on the
library's supported build targets (linux/amd64 and the other 64-bit
platforms its CI exercises): `uint` arithmetic wraps modulo `2^64`. -/
def uintSize : Nat := 2 ^ 64

/-- `ProxyStats` (part_003 lines 157-164): per-proxy counters and the
last-used timestamp.  The Go `uint` counter values are held as `Nat`;
every write reduces modulo `uintSize`, mirroring `uint` wraparound.
`time.Time` is modelled as a `Nat` tick. -/
structure ProxyStats where
  totalRequests : Nat := 0
  successCount : Nat := 0
  errorCount : Nat := 0
  lastUsed : Nat := 0
deriving Repr, DecidableEq

/-- `ProxyStats.Update` (part_003 lines 195-207): increment
`totalRequests` (a Go `uint` `++`, i.e. plus one modulo `2^64`); if the
response is non-nil and the error is nil, likewise increment
`successCount`, otherwise `errorCount`; set `lastUsed` to the current
time.  `response`/`err` are "the pointer is non-nil". -/
def ProxyStats.update (s : ProxyStats) (response err : Bool) (now : Nat) : ProxyStats :=
  let s1 := { s with totalRequests := (s.totalRequests + 1) % uintSize }
  let s2 :=
    if response && !err then { s1 with successCount := (s1.successCount + 1) % uintSize }
    else { s1 with errorCount := (s1.errorCount + 1) % uintSize }
  { s2 with lastUsed := now }

/-- The mutable state of one `Proxy` (part_003 lines 25-32): the
`isActive`/`isDisabled` flags and the owned statistics.  The endpoint
URL and metadata are never consulted by the code verified here and are
omitted from the state. -/
structure ProxyState where
  isActive : Bool := false
  isDisabled : Bool := false
  stats : ProxyStats := {}
deriving Repr, DecidableEq

/-- `Proxy.Update` (part_003 lines 139-141): shorthand for
`Stats().Update(response, err)`. -/
def ProxyState.update (p : ProxyState) (response err : Bool) (now : Nat) : ProxyState :=
  { p with stats := p.stats.update response err now }

/-- Proxies are created once and shared by reference between the global
pool and the resource pools; a proxy is an identifier into a heap. -/
abbrev ProxyId := Nat

/-- The heap of all proxy objects, by identity. -/
abbrev Heap := ProxyId → ProxyState

/-- Pointwise heap update at one proxy identity. -/
def heapSet (heap : Heap) (id : ProxyId) (f : ProxyState → ProxyState) : Heap :=
  fun j => if j = id then f (heap j) else heap j

/-- `Proxy.activate` (part_003 lines 111-115). -/
def activate (heap : Heap) (id : ProxyId) : Heap :=
  heapSet heap id fun p => { p with isActive := true }

/-- `Proxy.deactivate` (part_003 lines 118-122). -/
def deactivate (heap : Heap) (id : ProxyId) : Heap :=
  heapSet heap id fun p => { p with isActive := false }

/-- `Proxy.Disable` (part_003 lines 90-94). -/
def disableProxy (heap : Heap) (id : ProxyId) : Heap :=
  heapSet heap id fun p => { p with isDisabled := true }

/-- `Proxy.Enable` (part_003 lines 97-101). -/
def enableProxy (heap : Heap) (id : ProxyId) : Heap :=
  heapSet heap id fun p => { p with isDisabled := false }

/-- `Proxy.Update` on the heap. -/
def updateProxy (heap : Heap) (id : ProxyId) (response err : Bool) (now : Nat) : Heap :=
  heapSet heap id fun p => p.update response err now

/-! ## Rotation strategies (rotation.go, rotations/) -/

/-- `CompositeRotationLogicType` (part_005 lines 6-14). -/
inductive CompositeRotationLogicType where
  | RotationLogicAND
  | RotationLogicOR
deriving Repr, DecidableEq

/-- The `RotationStrategy` implementations shipped with the repository:
`OnlyEnabledRotation` (rotations/enabled.go), `ErrorThresholdRotation`
(part_006), `RequestLimitedRotation` (rotations/roundrobin.go file,
request-limited part), `RoundRobinRotation`, and `CompositeRotation`
(part_005), which nests arbitrarily. -/
inductive RotationStrategy where
  | onlyEnabled
  | errorThreshold (threshold : Nat)
  | requestLimited (limit : Nat)
  | roundRobinRotation
  | composite (logic : CompositeRotationLogicType)
      (strategies : List RotationStrategy)

mutual

/-- `ShouldRotate` of each built-in rotation strategy:
`OnlyEnabledRotation.ShouldRotate` returns `proxy.IsDisabled()`;
`ErrorThresholdRotation.ShouldRotate` returns `ErrorCount() >= threshold`;
`RequestLimitedRotation.ShouldRotate` returns `TotalRequests() >= limit`;
`RoundRobinRotation.ShouldRotate` always returns true;
`CompositeRotation.ShouldRotate` (part_005 lines 36-53) returns false on
zero sub-strategies and otherwise runs the short-circuiting loop. -/
def shouldRotate : RotationStrategy → ProxyState → Bool
  | .onlyEnabled, p => p.isDisabled
  | .errorThreshold t, p => decide (t ≤ p.stats.errorCount)
  | .requestLimited n, p => decide (n ≤ p.stats.totalRequests)
  | .roundRobinRotation, _ => true
  | .composite logic ss, p =>
    if ss.isEmpty then false else compositeLoop logic ss p

/-- The loop body of `CompositeRotation.ShouldRotate` (part_005 lines
41-52): OR short-circuits on the first true, AND on the first false;
exhausting the list yields `logic == AND`. -/
def compositeLoop (logic : CompositeRotationLogicType) :
    List RotationStrategy → ProxyState → Bool
  | [], _ => logic == .RotationLogicAND
  | s :: rest, p =>
    let result := shouldRotate s p
    if logic == .RotationLogicOR && result then true
    else if logic == .RotationLogicAND && !result then false
    else compositeLoop logic rest p

end

/-! ## Select filters and strategies (selector material, selects/) -/

/-- The built-in `SelectFilter`s (part_000): `RemoveActiveProxyFilter`
drops proxies whose `IsActive()` is true; `RemoveDisabledFilter` drops
proxies whose `IsDisabled()` is true.  Both are order-preserving. -/
inductive SelectFilter where
  | removeActiveProxyFilter
  | removeDisabledFilter
deriving Repr, DecidableEq

/-- `Filter` of each built-in filter (part_000): keep exactly the
proxies for which the flag is false. -/
def runFilter (heap : Heap) : SelectFilter → List ProxyId → List ProxyId
  | .removeActiveProxyFilter, ps => ps.filter fun id => !(heap id).isActive
  | .removeDisabledFilter, ps => ps.filter fun id => !(heap id).isDisabled

/-- `FilteredSelectProvider.GetProxies` (part_001 lines 43-53): apply
the filters in order to the source provider's proxies; if a filter step
empties the list, return the empty list immediately. -/
def filteredGetProxies (heap : Heap) : List SelectFilter → List ProxyId → List ProxyId
  | [], ps => ps
  | f :: rest, ps =>
    let ps' := runFilter heap f ps
    if ps'.isEmpty then ps' else filteredGetProxies heap rest ps'

/-- The two built-in `SelectStrategy` kinds. -/
inductive SelectKind where
  | roundRobinSelect
  | randomSelect
deriving Repr, DecidableEq

/-- A built-in select strategy bound (via `NewFilteredSelectFactory`)
to its owner's provider: the kind, the filter pipeline in front of the
provider, and the `RoundRobinSelect` cursor (`index`, initialized to -1
by `NewRoundRobinSelect`; unused by `RandomSelect`). -/
structure SelectStrategy where
  kind : SelectKind
  filters : List SelectFilter
  index : Int := -1
deriving Repr, DecidableEq

/-- The Go `Select() (*Proxy, error)` result: the returned proxy
pointer (`none` = nil) and whether the returned error is non-nil. -/
structure SelectOutcome where
  proxy : Option ProxyId
  isErr : Bool
deriving Repr, DecidableEq

/-- One call to `Select()` (selects/roundrobin.go lines 32-41,
part_002 lines 23-29): fetch the provider's (filtered) proxies; if the
list is empty return the `ErrFailedSelectProxy` error without touching
the cursor; otherwise `RoundRobinSelect` advances the cursor by
`s.index = (s.index + 1) % len(proxies)` (Go's truncated `%`, hence
`Int.tmod`) and returns the proxy at the cursor, and `RandomSelect`
returns the proxy at `rand.IntN(len(proxies))`, supplied here as the
oracle `rand` reduced modulo the length.  `pool` is the owner
provider's current proxy list. -/
def SelectStrategy.run (s : SelectStrategy) (heap : Heap) (pool : List ProxyId)
    (rand : Nat) : SelectOutcome × SelectStrategy :=
  let proxies := filteredGetProxies heap s.filters pool
  match s.kind with
  | .roundRobinSelect =>
    if proxies.isEmpty then (⟨none, true⟩, s)
    else
      let idx := (s.index + 1).tmod proxies.length
      (⟨some (proxies.getD idx.toNat 0), false⟩, { s with index := idx })
  | .randomSelect =>
    if proxies.isEmpty then (⟨none, true⟩, s)
    else (⟨some (proxies.getD (rand % proxies.length) 0), false⟩, s)

/-- A sequence of consecutive `Select()` calls against a fixed provider
pool, threading the strategy state; one oracle value per call. -/
def iterateSelect (heap : Heap) (pool : List ProxyId) (s : SelectStrategy) :
    List Nat → List SelectOutcome × SelectStrategy
  | [] => ([], s)
  | r :: rest =>
    let step := s.run heap pool r
    let next := iterateSelect heap pool step.2 rest
    (step.1 :: next.1, next.2)

/-! ## Domain normalization and `ResourceConfig` (resource.go)

`ResourceConfig.getDomainFromURL` calls Go's `net/url.Parse` and
`URL.Hostname()`.  That standard-library step is modelled here on
character lists: strip the fragment (first `#`), detect and strip a
scheme exactly as `getScheme` does (letter first, then
letters/digits/`+`/`-`/`.` up to a `:`), strip the query (first `?`),
and extract the authority when the remainder starts with `//` (but not
an unprefixed `///`), taking the host as the authority up to the first
`/`, after the last `@`, minus a trailing `:digits` port and
surrounding brackets — exactly `URL.Hostname()`.  Parse errors (which
make `getDomainFromURL` fall back to the raw string) are represented as
an empty hostname: `getDomainFromURL` treats the two cases
identically.  Hostname-validation errors of `parseAuthority` are not
modelled. -/

/-- A letter, as accepted first in a scheme by Go `getScheme`. -/
def isSchemeLetter (c : Char) : Bool :=
  ('a' ≤ c && c ≤ 'z') || ('A' ≤ c && c ≤ 'Z')

/-- A character allowed after the first position of a scheme. -/
def isSchemeChar (c : Char) : Bool :=
  isSchemeLetter c || ('0' ≤ c && c ≤ '9') || c == '+' || c == '-' || c == '.'

/-- Scan for the `:` ending a scheme, requiring every character before
it to be a scheme character; `none` if a non-scheme character or the
end of the string is reached first. -/
def schemeRestAux : List Char → Option (List Char)
  | [] => none
  | c :: rest =>
    if c = ':' then some rest
    else if isSchemeChar c then schemeRestAux rest else none

/-- Go `getScheme`: returns (a scheme was present, the remainder after
the scheme's `:` or the whole input). -/
def schemeSplit (cs : List Char) : Bool × List Char :=
  match cs with
  | [] => (false, cs)
  | c :: _ =>
    if isSchemeLetter c then
      match schemeRestAux cs with
      | some rest => (true, rest)
      | none => (false, cs)
    else (false, cs)

/-- The part of the list before the first occurrence of `sep`
(the whole list if absent). -/
def takeBeforeChar (sep : Char) (cs : List Char) : List Char :=
  cs.takeWhile fun c => c != sep

/-- The part of the list after the last occurrence of `sep`
(the whole list if absent). -/
def afterLastChar (sep : Char) (cs : List Char) : List Char :=
  (cs.reverse.takeWhile fun c => c != sep).reverse

/-- ASCII digit. -/
def isDigitChar (c : Char) : Bool := '0' ≤ c && c ≤ '9'

/-- Go `net/url.splitHostPort` port removal: drop a trailing
`:` + digits (the digits may be empty) if the host ends in one. -/
def stripPortChars (cs : List Char) : List Char :=
  let rev := cs.reverse
  let digits := rev.takeWhile isDigitChar
  match rev.drop digits.length with
  | ':' :: before => before.reverse
  | _ => cs

/-- Go `net/url.splitHostPort` bracket removal for IPv6 hosts. -/
def stripBracketsChars (cs : List Char) : List Char :=
  match cs with
  | '[' :: rest =>
    if rest.getLast? = some ']' then rest.dropLast else cs
  | _ => cs

/-- `URL.Hostname()` of a parsed authority: after the last `@`, minus
port and brackets. -/
def hostFromAuthority (auth : List Char) : List Char :=
  stripBracketsChars (stripPortChars (afterLastChar '@' auth))

/-- Model of `url.Parse(urlStr).Hostname()` as used by
`ResourceConfig.getDomainFromURL` (resource.go lines 121-128); `""`
stands for both "no host in the URL" and "parse error". -/
def urlHostname (s : String) : String :=
  let noFrag := takeBeforeChar '#' s.data
  let (hadScheme, rest) := schemeSplit noFrag
  let rest := takeBeforeChar '?' rest
  match rest with
  | '/' :: '/' :: tail =>
    match hadScheme, tail with
    | false, '/' :: _ => ""
    | _, _ => ⟨hostFromAuthority (takeBeforeChar '/' tail)⟩
  | _ => ""

/-- `c` is in the cutset `"/ "` of `strings.Trim` in `trimDomain`. -/
def isTrimCut (c : Char) : Bool := c == '/' || c == ' '

/-- If `pre` is an initial run of `cs`, the remainder after it. -/
def matchFront : List Char → List Char → Option (List Char)
  | [], s => some s
  | _, [] => none
  | p :: ps, c :: s => if p = c then matchFront ps s else none

/-- `strings.TrimPrefix`: drop `pre` from the front of `cs` if it is a
prefix, otherwise return `cs` unchanged. -/
def dropFront (pre cs : List Char) : List Char :=
  match matchFront pre cs with
  | some rest => rest
  | none => cs

/-- `strings.HasSuffix suf s`: `s` ends with `suf`. -/
def hasSuffixChars (s suf : List Char) : Bool :=
  (matchFront suf.reverse s.reverse).isSome

/-- `ResourceConfig.trimDomain` (resource.go lines 131-136): strip one
leading `http://`, then `https://`, then `www.`, then trim surrounding
`/` and spaces. -/
def trimDomain (s : String) : String :=
  let s1 := dropFront "www.".data (dropFront "https://".data (dropFront "http://".data s.data))
  ⟨((s1.dropWhile isTrimCut).reverse.dropWhile isTrimCut).reverse⟩

/-- `ResourceConfig.getDomainFromURL` (resource.go lines 122-128): if
the URL parses with a non-empty hostname, trim the hostname; otherwise
trim the raw string. -/
def getDomainFromURL (urlStr : String) : String :=
  let h := urlHostname urlStr
  if h = "" then trimDomain urlStr else trimDomain h

/-- `ResourceConfig.normalizeDomain` (resource.go lines 114-119): the
empty string maps to itself; otherwise lower-case the extracted
domain.  (`strings.ToLower` restricted to ASCII, which `Char.toLower`
implements; the domains in this development are ASCII.) -/
def normalizeDomain (domain : String) : String :=
  if domain = "" then "" else ⟨(getDomainFromURL domain).data.map Char.toLower⟩

/-- `ResourceConfig` (resource.go lines 12-19): its own proxy pool, the
(already normalized, see `NewResourceConfig`) domain, the
`notIgnoreSubdomains` flag (false = subdomains included, the default),
and its own strategies. -/
structure ResourceConfig where
  proxies : List ProxyId
  domain : String
  notIgnoreSubdomains : Bool := false
  selectStrategy : SelectStrategy
  rotationStrategy : RotationStrategy

/-- `ResourceConfig.CompareDomain` (resource.go lines 96-111):
normalize the candidate; exact match, or — when subdomains are not
ignored-out — a `"." + domain` suffix match. -/
def compareDomain (rc : ResourceConfig) (domain : String) : Bool :=
  let rcDomain := rc.domain
  let normalized := normalizeDomain domain
  if normalized = rcDomain then true
  else if !rc.notIgnoreSubdomains && hasSuffixChars normalized.data ('.' :: rcDomain.data) then
    true
  else false

/-! ## `ProxyManagerImpl` (manager.go) -/

/-- `ProxyManagerImpl` (manager.go lines 24-33): the global proxy pool,
the resource overrides, the single `lastUsed` pointer (`none` = nil,
and `NewProxyManager` always starts with it nil), and the global
strategies.  The mutexes guard the sequential behavior verified here
and carry no state of their own. -/
structure ProxyManagerImpl where
  proxies : List ProxyId
  resources : List ResourceConfig
  lastUsed : Option ProxyId := none
  rotationStrategy : RotationStrategy
  selectStrategy : SelectStrategy

/-- `ProxyManagerImpl.LastUsed` (manager.go lines 133-137). -/
def ProxyManagerImpl.LastUsed (m : ProxyManagerImpl) : Option ProxyId :=
  m.lastUsed

/-- `ProxyManagerImpl.AddProxies` (manager.go lines 158-162). -/
def ProxyManagerImpl.addProxies (m : ProxyManagerImpl) (ps : List ProxyId) :
    ProxyManagerImpl :=
  { m with proxies := m.proxies ++ ps }

/-- `ProxyManagerImpl.AddResources` (manager.go lines 151-155). -/
def ProxyManagerImpl.addResources (m : ProxyManagerImpl) (rs : List ResourceConfig) :
    ProxyManagerImpl :=
  { m with resources := m.resources ++ rs }

/-- `ProxyManagerImpl.getResourceByDomain` (manager.go lines 176-186):
the first resource, in insertion order, whose `CompareDomain` matches —
together with its position, since the Go code holds a pointer into the
slice and later mutation of the resource's select strategy happens in
place.  `none` models the `ErrResourceNotFound` return, the only error
this function produces. -/
def findResource : List ResourceConfig → String → Option (Nat × ResourceConfig)
  | [], _ => none
  | rc :: rest, d =>
    if compareDomain rc d then some (0, rc)
    else
      match findResource rest d with
      | some (i, r) => some (i + 1, r)
      | none => none

/-- The decision-failure errors of `GetNextProxy` (part_008 errors
list): `ErrEmptyProxyList` and `ErrFailedSelectProxy` are returned
wrapped in `ErrProxyNotAvailable` by `proxyNotAvailable`;
`proxyNotAvailableBare` is the defensive bare `ErrProxyNotAvailable`
for a nil proxy with a nil error (manager.go lines 116-118). -/
inductive GetNextErr where
  | emptyProxyList
  | failedSelect
  | proxyNotAvailableBare
deriving Repr, DecidableEq

/-- The full observable outcome of one `GetNextProxy` call: the
returned `(Proxy, error)` pair, the manager and heap afterwards, and
whether a select strategy was invoked during the call. -/
structure GetNextResult where
  result : Except GetNextErr ProxyId
  mgr : ProxyManagerImpl
  heap : Heap
  selectCalled : Bool

/-- `lastUsed.deactivate()` guarded by `lastUsed != nil`
(manager.go lines 120-122). -/
def optDeactivate (heap : Heap) : Option ProxyId → Heap
  | some lu => deactivate heap lu
  | none => heap

/-- The common tail of `GetNextProxy` after a `Select()` call
(manager.go lines 97-128 both branches): propagate a selection error
wrapped as `ErrProxyNotAvailable`; fail with bare
`ErrProxyNotAvailable` on a nil proxy without error; otherwise
deactivate the previous `lastUsed`, activate the new current proxy,
replace `lastUsed` and return the proxy.  `m1` is the manager with the
select strategy's in-place cursor mutation already applied
(`m1.lastUsed` still holds the value read before selecting). -/
def finishSelect (heap : Heap) (m1 : ProxyManagerImpl) (out : SelectOutcome) :
    GetNextResult :=
  if out.isErr then ⟨.error .failedSelect, m1, heap, true⟩
  else
    match out.proxy with
    | none => ⟨.error .proxyNotAvailableBare, m1, heap, true⟩
    | some current =>
      ⟨.ok current, { m1 with lastUsed := some current },
        activate (optDeactivate heap m1.lastUsed) current, true⟩

/-- The `Select()` call of `GetNextProxy`: against the global pool and
strategy (`branch = none`, manager.go lines 97-102) or against the
matched resource's pool and strategy (`branch = some (i, rc)`,
manager.go lines 108-113, with the cursor mutation written back into
the resource list at position `i`). -/
def selectAndFinish (heap : Heap) (m : ProxyManagerImpl) (rand : Nat) :
    Option (Nat × ResourceConfig) → GetNextResult
  | none =>
    match m.selectStrategy.run heap m.proxies rand with
    | (out, s') => finishSelect heap { m with selectStrategy := s' } out
  | some (i, rc) =>
    match rc.selectStrategy.run heap rc.proxies rand with
    | (out, s') =>
      finishSelect heap
        { m with resources := m.resources.set i { rc with selectStrategy := s' } } out

/-- The rotate-or-reuse step of `GetNextProxy` (manager.go lines 92-95
and 103-106, identical in both branches up to the applicable rotation
strategy `rot` and the selection branch): if `lastUsed` is non-nil and
`rot` says not to rotate, return `lastUsed` unchanged without calling
any selection; otherwise select. -/
def reuseOrSelect (heap : Heap) (m : ProxyManagerImpl) (rand : Nat)
    (rot : RotationStrategy) (branch : Option (Nat × ResourceConfig)) : GetNextResult :=
  match m.lastUsed with
  | some lu =>
    if shouldRotate rot (heap lu) then selectAndFinish heap m rand branch
    else ⟨.ok lu, m, heap, false⟩
  | none => selectAndFinish heap m rand branch

/-- `ProxyManagerImpl.GetNextProxy` (manager.go lines 80-129).  The
`err != nil && !isNotFound` branch of lines 85-88 is unreachable
(`getResourceByDomain` only ever fails with `ErrResourceNotFound`) and
has no counterpart here.  `rand` is the oracle consumed if a
`RandomSelect` runs. -/
def getNextProxy (heap : Heap) (m : ProxyManagerImpl) (domain : String) (rand : Nat) :
    GetNextResult :=
  if m.proxies.isEmpty && m.resources.isEmpty then
    ⟨.error .emptyProxyList, m, heap, false⟩
  else
    match findResource m.resources domain with
    | none => reuseOrSelect heap m rand m.rotationStrategy none
    | some (i, rc) => reuseOrSelect heap m rand rc.rotationStrategy (some (i, rc))

/-- The rotation strategy `GetNextProxy domain` consults: the matched
resource's if the domain matches a resource, else the global one. -/
def applicableRotation (m : ProxyManagerImpl) (domain : String) : RotationStrategy :=
  match findResource m.resources domain with
  | some (_, rc) => rc.rotationStrategy
  | none => m.rotationStrategy

/-! ## Sequential histories of API calls -/

/-- One sequential API call against a manager and its proxies:
`GetNextProxy`, `AddProxies`, `AddResources`, `Proxy.Disable`,
`Proxy.Enable`, `Proxy.Update`. -/
inductive MgrOp where
  | getNext (domain : String) (rand : Nat)
  | addProxies (ps : List ProxyId)
  | addResources (rs : List ResourceConfig)
  | disable (id : ProxyId)
  | enable (id : ProxyId)
  | update (id : ProxyId) (response err : Bool) (now : Nat)

/-- A manager together with the heap of proxy objects it can reach. -/
structure Sys where
  heap : Heap
  mgr : ProxyManagerImpl

/-- Effect of one API call on the system state (the result of a
`GetNextProxy` call is dropped; only its state effect remains). -/
def stepOp (σ : Sys) : MgrOp → Sys
  | .getNext d r =>
    let res := getNextProxy σ.heap σ.mgr d r
    ⟨res.heap, res.mgr⟩
  | .addProxies ps => ⟨σ.heap, σ.mgr.addProxies ps⟩
  | .addResources rs => ⟨σ.heap, σ.mgr.addResources rs⟩
  | .disable id => ⟨disableProxy σ.heap id, σ.mgr⟩
  | .enable id => ⟨enableProxy σ.heap id, σ.mgr⟩
  | .update id response err now => ⟨updateProxy σ.heap id response err now, σ.mgr⟩

/-- Run a sequence of sequential API calls. -/
def runOps (σ : Sys) (ops : List MgrOp) : Sys :=
  ops.foldl stepOp σ

/-- All proxies referenced from the global pool or any resource pool. -/
def allPoolIds (m : ProxyManagerImpl) : List ProxyId :=
  m.proxies ++ (m.resources.map ResourceConfig.proxies).flatten

/-- System invariant maintained by every sequential API call: a proxy
is active exactly when it is the manager's `lastUsed`, and `lastUsed`
(when set) references a proxy of some pool. -/
def Inv (σ : Sys) : Prop :=
  (∀ id, ((σ.heap id).isActive = true) ↔ σ.mgr.lastUsed = some id) ∧
  (∀ p, σ.mgr.lastUsed = some p → p ∈ allPoolIds σ.mgr)

/-- A sequence of `ProxyStats.Update` calls, in order: each element is
(response non-nil, err non-nil, current time). -/
def applyUpdates (s : ProxyStats) (us : List (Bool × Bool × Nat)) : ProxyStats :=
  us.foldl (fun acc u => acc.update u.1 u.2.1 u.2.2) s

/-- A concrete heap of fresh proxies (all flags false, zero stats), as
the proxy constructors produce. -/
def heapW : Heap := fun _ => {}

/-- A concrete freshly constructed manager: one proxy, no resources,
`OnlyEnabledRotation`, unfiltered `RoundRobinSelect`. -/
def mW : ProxyManagerImpl :=
  { proxies := [0], resources := [], lastUsed := none,
    rotationStrategy := .onlyEnabled, selectStrategy := ⟨.roundRobinSelect, [], -1⟩ }

/-- A concrete manager with no proxies and no resources. -/
def mEmpty : ProxyManagerImpl :=
  { proxies := [], resources := [], lastUsed := none,
    rotationStrategy := .onlyEnabled, selectStrategy := ⟨.roundRobinSelect, [], -1⟩ }

/-- A `ResourceConfig` built by `NewResourceConfig true` for the domain
`"example.com"` (so the stored domain is normalized).  The proxy pool
and the strategies do not participate in domain matching; the Boolean
argument is the `notIgnoreSubdomains` flag (`false` = subdomains
included, the `WithIgnoreSubdomains` default). -/
def exampleComResource (noSub : Bool) : ResourceConfig :=
  { proxies := [], domain := normalizeDomain "example.com",
    notIgnoreSubdomains := noSub,
    selectStrategy := ⟨.randomSelect, [], -1⟩,
    rotationStrategy := .onlyEnabled }

/-- A `ResourceConfig` built by `NewResourceConfig true` for the empty
domain. -/
def emptyDomainResource (noSub : Bool) : ResourceConfig :=
  { proxies := [], domain := normalizeDomain "",
    notIgnoreSubdomains := noSub,
    selectStrategy := ⟨.randomSelect, [], -1⟩,
    rotationStrategy := .onlyEnabled }

/-! ## Helper lemmas -/

theorem activate_isActive (heap : Heap) (id j : ProxyId) :
    ((activate heap id) j).isActive = if j = id then true else (heap j).isActive := by
  unfold activate heapSet
  split <;> rfl

theorem deactivate_isActive (heap : Heap) (id j : ProxyId) :
    ((deactivate heap id) j).isActive = if j = id then false else (heap j).isActive := by
  unfold deactivate heapSet
  split <;> rfl

theorem disableProxy_isActive (heap : Heap) (id j : ProxyId) :
    ((disableProxy heap id) j).isActive = (heap j).isActive := by
  unfold disableProxy heapSet
  split <;> rfl

theorem enableProxy_isActive (heap : Heap) (id j : ProxyId) :
    ((enableProxy heap id) j).isActive = (heap j).isActive := by
  unfold enableProxy heapSet
  split <;> rfl

theorem updateProxy_isActive (heap : Heap) (id j : ProxyId) (r e : Bool) (now : Nat) :
    ((updateProxy heap id r e now) j).isActive = (heap j).isActive := by
  unfold updateProxy heapSet ProxyState.update
  split <;> rfl

theorem mem_of_mem_runFilter (heap : Heap) (f : SelectFilter) (ps : List ProxyId)
    (p : ProxyId) (h : p ∈ runFilter heap f ps) : p ∈ ps := by
  cases f <;> exact (List.mem_filter.mp h).1

theorem mem_of_mem_filteredGetProxies (heap : Heap) (fs : List SelectFilter)
    (ps : List ProxyId) (p : ProxyId) (h : p ∈ filteredGetProxies heap fs ps) : p ∈ ps := by
  induction fs generalizing ps with
  | nil => simpa [filteredGetProxies] using h
  | cons f rest ih =>
    simp only [filteredGetProxies] at h
    split at h
    · next hemp =>
      rw [List.isEmpty_iff.mp hemp] at h
      cases h
    · exact mem_of_mem_runFilter heap f ps p (ih _ h)

theorem tmod_toNat_lt (a : Int) (n : Nat) (hn : 0 < n) : (a.tmod ↑n).toNat < n := by
  cases a with
  | ofNat m =>
    have h : (Int.ofNat m).tmod ↑n = Int.ofNat (m % n) := rfl
    rw [h]
    simpa using Nat.mod_lt m hn
  | negSucc m =>
    have h : (Int.negSucc m).tmod ↑n = -(((m + 1) % n : Nat) : Int) := rfl
    rw [h, Int.toNat_of_nonpos (neg_nonpos.mpr (Int.natCast_nonneg _))]
    exact hn

/-- On an empty (filtered) pool, `Select()` errors and leaves the
strategy state untouched. -/
theorem run_empty (s : SelectStrategy) (heap : Heap) (pool : List ProxyId) (rand : Nat)
    (h : filteredGetProxies heap s.filters pool = []) :
    s.run heap pool rand = (⟨none, true⟩, s) := by
  obtain ⟨k, fs, idx⟩ := s
  cases k <;> simp [SelectStrategy.run, h]

/-- On a non-empty (filtered) pool, `Select()` returns a member of the
filtered pool and no error. -/
theorem run_nonempty (s : SelectStrategy) (heap : Heap) (pool : List ProxyId) (rand : Nat)
    (h : filteredGetProxies heap s.filters pool ≠ []) :
    ∃ p s', s.run heap pool rand = (⟨some p, false⟩, s') ∧
      p ∈ filteredGetProxies heap s.filters pool := by
  obtain ⟨k, fs, idx⟩ := s
  have hne : (filteredGetProxies heap fs pool).isEmpty = false := by
    simpa [List.isEmpty_iff] using h
  have hlen : 0 < (filteredGetProxies heap fs pool).length := List.length_pos.mpr h
  cases k with
  | roundRobinSelect =>
    have hidx := tmod_toNat_lt (idx + 1) (filteredGetProxies heap fs pool).length hlen
    refine ⟨(filteredGetProxies heap fs pool).getD
        ((idx + 1).tmod (filteredGetProxies heap fs pool).length).toNat 0,
      ⟨.roundRobinSelect, fs, (idx + 1).tmod (filteredGetProxies heap fs pool).length⟩,
      ?_, ?_⟩
    · simp [SelectStrategy.run, hne]
    · rw [List.getD_eq_getElem _ _ hidx]
      exact List.getElem_mem _
  | randomSelect =>
    have hidx : rand % (filteredGetProxies heap fs pool).length <
        (filteredGetProxies heap fs pool).length := Nat.mod_lt _ hlen
    refine ⟨(filteredGetProxies heap fs pool).getD
        (rand % (filteredGetProxies heap fs pool).length) 0,
      ⟨.randomSelect, fs, idx⟩, ?_, ?_⟩
    · simp [SelectStrategy.run, hne]
    · rw [List.getD_eq_getElem _ _ hidx]
      exact List.getElem_mem _

theorem findResource_getElem? (rs : List ResourceConfig) (d : String) (i : Nat)
    (rc : ResourceConfig) (h : findResource rs d = some (i, rc)) : rs[i]? = some rc := by
  induction rs generalizing i with
  | nil => simp [findResource] at h
  | cons r rest ih =>
    simp only [findResource] at h
    split at h
    · injection h with h'
      injection h' with h1 h2
      subst h2
      simp [← h1]
    · cases hrec : findResource rest d with
      | none => rw [hrec] at h; cases h
      | some pr =>
        obtain ⟨j, r'⟩ := pr
        rw [hrec] at h
        injection h with h'
        injection h' with h1 h2
        subst h2
        rw [← h1]
        simpa using ih j hrec

theorem set_getElem?_same {α : Type} (l : List α) (i : Nat) (x : α)
    (h : l[i]? = some x) : l.set i x = l := by
  induction l generalizing i with
  | nil => simp at h
  | cons a t ih =>
    cases i with
    | zero =>
      simp at h
      simp [h]
    | succ j =>
      simp at h
      simp [List.set, ih j h]

/-- The select step of `GetNextProxy` either fails and leaves manager
and heap untouched, or returns a pool member `p`, deactivates the
previous `lastUsed`, activates `p`, stores `p` as `lastUsed`, and keeps
every pool unchanged. -/
theorem selectAndFinish_spec (heap : Heap) (m : ProxyManagerImpl) (rand : Nat)
    (branch : Option (Nat × ResourceConfig))
    (hb : ∀ i rc, branch = some (i, rc) → m.resources[i]? = some rc) :
    (∃ e, selectAndFinish heap m rand branch = ⟨.error e, m, heap, true⟩) ∨
    (∃ p m', selectAndFinish heap m rand branch =
        ⟨.ok p, m', activate (optDeactivate heap m.lastUsed) p, true⟩ ∧
      m'.lastUsed = some p ∧ m'.proxies = m.proxies ∧
      m'.resources.map ResourceConfig.proxies = m.resources.map ResourceConfig.proxies ∧
      p ∈ allPoolIds m) := by
  cases branch with
  | none =>
    by_cases hfil : filteredGetProxies heap m.selectStrategy.filters m.proxies = []
    · left
      refine ⟨.failedSelect, ?_⟩
      simp only [selectAndFinish, run_empty _ _ _ _ hfil]
      rfl
    · right
      obtain ⟨p, s', hrun, hmem⟩ := run_nonempty m.selectStrategy heap m.proxies rand hfil
      refine ⟨p, { m with selectStrategy := s', lastUsed := some p }, ?_, rfl, rfl, rfl, ?_⟩
      · simp only [selectAndFinish, hrun]
        rfl
      · exact List.mem_append_left _ (mem_of_mem_filteredGetProxies _ _ _ _ hmem)
  | some pr =>
    obtain ⟨i, rc⟩ := pr
    have hi : m.resources[i]? = some rc := hb i rc rfl
    by_cases hfil : filteredGetProxies heap rc.selectStrategy.filters rc.proxies = []
    · left
      refine ⟨.failedSelect, ?_⟩
      simp only [selectAndFinish, run_empty _ _ _ _ hfil]
      have hrc : ({ rc with selectStrategy := rc.selectStrategy } : ResourceConfig) = rc := rfl
      rw [hrc, set_getElem?_same _ _ _ hi]
      rfl
    · right
      obtain ⟨p, s', hrun, hmem⟩ := run_nonempty rc.selectStrategy heap rc.proxies rand hfil
      refine ⟨p,
        { m with resources := m.resources.set i { rc with selectStrategy := s' },
                 lastUsed := some p }, ?_, rfl, rfl, ?_, ?_⟩
      · simp only [selectAndFinish, hrun]
        rfl
      · rw [List.map_set]
        have hpx : ({ rc with selectStrategy := s' } : ResourceConfig).proxies = rc.proxies :=
          rfl
        rw [hpx]
        apply set_getElem?_same
        simp [hi]
      · refine List.mem_append_right _ ?_
        rw [List.mem_flatten]
        exact ⟨rc.proxies, List.mem_map.mpr ⟨rc, List.getElem?_mem hi, rfl⟩,
          mem_of_mem_filteredGetProxies _ _ _ _ hmem⟩

theorem reuseOrSelect_of_none (heap : Heap) (m : ProxyManagerImpl) (rand : Nat)
    (rot : RotationStrategy) (branch : Option (Nat × ResourceConfig))
    (h : m.lastUsed = none) :
    reuseOrSelect heap m rand rot branch = selectAndFinish heap m rand branch := by
  unfold reuseOrSelect
  rw [h]

theorem reuseOrSelect_of_rotate (heap : Heap) (m : ProxyManagerImpl) (rand : Nat)
    (rot : RotationStrategy) (branch : Option (Nat × ResourceConfig)) (lu : ProxyId)
    (h : m.lastUsed = some lu) (hrot : shouldRotate rot (heap lu) = true) :
    reuseOrSelect heap m rand rot branch = selectAndFinish heap m rand branch := by
  unfold reuseOrSelect
  rw [h]
  simp [hrot]

theorem reuseOrSelect_of_reuse (heap : Heap) (m : ProxyManagerImpl) (rand : Nat)
    (rot : RotationStrategy) (branch : Option (Nat × ResourceConfig)) (lu : ProxyId)
    (h : m.lastUsed = some lu) (hrot : shouldRotate rot (heap lu) = false) :
    reuseOrSelect heap m rand rot branch = ⟨.ok lu, m, heap, false⟩ := by
  unfold reuseOrSelect
  rw [h]
  simp [hrot]

theorem getNextProxy_of_global (heap : Heap) (m : ProxyManagerImpl) (domain : String)
    (rand : Nat) (hne : (m.proxies.isEmpty && m.resources.isEmpty) = false)
    (h : findResource m.resources domain = none) :
    getNextProxy heap m domain rand = reuseOrSelect heap m rand m.rotationStrategy none := by
  unfold getNextProxy
  rw [hne, h]
  rfl

theorem getNextProxy_of_resource (heap : Heap) (m : ProxyManagerImpl) (domain : String)
    (rand : Nat) (i : Nat) (rc : ResourceConfig)
    (hne : (m.proxies.isEmpty && m.resources.isEmpty) = false)
    (h : findResource m.resources domain = some (i, rc)) :
    getNextProxy heap m domain rand =
      reuseOrSelect heap m rand rc.rotationStrategy (some (i, rc)) := by
  unfold getNextProxy
  rw [hne, h]
  rfl

/-- Master case analysis of one `GetNextProxy` call: it fails leaving
the state untouched, or reuses `lastUsed` leaving the state untouched
without selecting, or selects a pool member, makes exactly it active
and stores it in `lastUsed`. -/
theorem getNextProxy_shape (heap : Heap) (m : ProxyManagerImpl) (domain : String)
    (rand : Nat) :
    (∃ e b, getNextProxy heap m domain rand = ⟨.error e, m, heap, b⟩) ∨
    (∃ p, getNextProxy heap m domain rand = ⟨.ok p, m, heap, false⟩ ∧
      m.lastUsed = some p) ∨
    (∃ p m', getNextProxy heap m domain rand =
        ⟨.ok p, m', activate (optDeactivate heap m.lastUsed) p, true⟩ ∧
      m'.lastUsed = some p ∧ m'.proxies = m.proxies ∧
      m'.resources.map ResourceConfig.proxies = m.resources.map ResourceConfig.proxies ∧
      p ∈ allPoolIds m) := by
  by_cases hne : (m.proxies.isEmpty && m.resources.isEmpty) = true
  · refine .inl ⟨.emptyProxyList, false, ?_⟩
    unfold getNextProxy
    rw [hne]
    rfl
  · have hne' : (m.proxies.isEmpty && m.resources.isEmpty) = false :=
      Bool.not_eq_true _ ▸ eq_false_of_ne_true hne
    have hmain : ∀ rot branch,
        (∀ i rc, branch = some (i, rc) → m.resources[i]? = some rc) →
        (∃ e b, reuseOrSelect heap m rand rot branch = ⟨.error e, m, heap, b⟩) ∨
        (∃ p, reuseOrSelect heap m rand rot branch = ⟨.ok p, m, heap, false⟩ ∧
          m.lastUsed = some p) ∨
        (∃ p m', reuseOrSelect heap m rand rot branch =
            ⟨.ok p, m', activate (optDeactivate heap m.lastUsed) p, true⟩ ∧
          m'.lastUsed = some p ∧ m'.proxies = m.proxies ∧
          m'.resources.map ResourceConfig.proxies = m.resources.map ResourceConfig.proxies ∧
          p ∈ allPoolIds m) := by
      intro rot branch hb
      have spec := selectAndFinish_spec heap m rand branch hb
      cases hlu : m.lastUsed with
      | none =>
        rw [hlu] at spec
        rw [reuseOrSelect_of_none heap m rand rot branch hlu]
        rcases spec with ⟨e, hE⟩ | ⟨p, m', hS, h1, h2, h3, h4⟩
        · exact .inl ⟨e, true, hE⟩
        · exact .inr (.inr ⟨p, m', hS, h1, h2, h3, h4⟩)
      | some lu =>
        rw [hlu] at spec
        by_cases hrot : shouldRotate rot (heap lu) = true
        · rw [reuseOrSelect_of_rotate heap m rand rot branch lu hlu hrot]
          rcases spec with ⟨e, hE⟩ | ⟨p, m', hS, h1, h2, h3, h4⟩
          · exact .inl ⟨e, true, hE⟩
          · exact .inr (.inr ⟨p, m', hS, h1, h2, h3, h4⟩)
        · have hrot' : shouldRotate rot (heap lu) = false :=
            Bool.not_eq_true _ ▸ eq_false_of_ne_true hrot
          rw [reuseOrSelect_of_reuse heap m rand rot branch lu hlu hrot']
          exact .inr (.inl ⟨lu, rfl, rfl⟩)
    cases hfr : findResource m.resources domain with
    | none =>
      rw [getNextProxy_of_global heap m domain rand hne' hfr]
      exact hmain m.rotationStrategy none (by simp)
    | some pr =>
      obtain ⟨i, rc⟩ := pr
      have hb : ∀ i' rc', (some (i, rc) : Option (Nat × ResourceConfig)) = some (i', rc') →
          m.resources[i']? = some rc' := by
        intro i' rc' hE
        injection hE with hE'
        injection hE' with h1 h2
        rw [← h1, ← h2]
        exact findResource_getElem? _ _ _ _ hfr
      rw [getNextProxy_of_resource heap m domain rand i rc hne' hfr]
      exact hmain rc.rotationStrategy (some (i, rc)) hb

/-! ## The exactly-one-active invariant -/

theorem inv_of_start (heap0 : Heap) (m0 : ProxyManagerImpl)
    (h0 : ∀ id, (heap0 id).isActive = false) (h1 : m0.lastUsed = none) :
    Inv ⟨heap0, m0⟩ := by
  constructor
  · intro id
    simp [h0 id, h1]
  · intro p hp
    rw [h1] at hp
    cases hp

/-- Post-state of a successful `GetNextProxy` from a state satisfying
the invariant: `lastUsed` holds the returned proxy, the returned proxy
is in some pool, and it is the only active proxy anywhere. -/
theorem getNext_ok_post (heap : Heap) (m : ProxyManagerImpl) (hInv : Inv ⟨heap, m⟩)
    (domain : String) (rand : Nat) (p : ProxyId)
    (hOk : (getNextProxy heap m domain rand).result = .ok p) :
    (getNextProxy heap m domain rand).mgr.lastUsed = some p ∧
    p ∈ allPoolIds (getNextProxy heap m domain rand).mgr ∧
    (∀ q, (((getNextProxy heap m domain rand).heap q).isActive = true) ↔ q = p) := by
  rcases getNextProxy_shape heap m domain rand with
    ⟨e, b, hE⟩ | ⟨q, hR, hlu⟩ | ⟨q, m', hS, h1, h2, h3, h4⟩
  · rw [hE] at hOk
    cases hOk
  · rw [hR] at hOk ⊢
    have hqp : q = p := by
      injection hOk
    subst hqp
    refine ⟨hlu, hInv.2 q hlu, ?_⟩
    intro j
    rw [hInv.1 j, hlu]
    simp [eq_comm]
  · rw [hS] at hOk ⊢
    have hqp : q = p := by
      injection hOk
    subst hqp
    have hpools : allPoolIds m' = allPoolIds m := by
      unfold allPoolIds
      rw [h2, h3]
    refine ⟨h1, hpools ▸ h4, ?_⟩
    intro j
    rw [activate_isActive]
    by_cases hj : j = q
    · simp [hj]
    · simp only [if_neg hj]
      cases hlu : m.lastUsed with
      | none =>
        simp only [optDeactivate]
        rw [hInv.1 j, hlu]
        simp [hj]
      | some lu =>
        simp only [optDeactivate, deactivate_isActive]
        by_cases hjl : j = lu
        · have hlq : ¬lu = q := by
            rw [← hjl]
            exact hj
          simp [hjl, hlq]
        · simp only [if_neg hjl]
          rw [hInv.1 j, hlu]
          simp only [Option.some.injEq]
          constructor
          · intro h
            exact absurd h.symm hjl
          · intro h
            exact absurd h hj

theorem inv_step (σ : Sys) (op : MgrOp) (h : Inv σ) : Inv (stepOp σ op) := by
  obtain ⟨heap, m⟩ := σ
  cases op with
  | getNext d r =>
    rcases getNextProxy_shape heap m d r with
      ⟨e, b, hE⟩ | ⟨p, hR, hlu⟩ | ⟨p, m', hS, h1, h2, h3, h4⟩
    · simpa [stepOp, hE] using h
    · simpa [stepOp, hR] using h
    · have hOk : (getNextProxy heap m d r).result = .ok p := by rw [hS]
      have post := getNext_ok_post heap m h d r p hOk
      constructor
      · intro id
        show ((getNextProxy heap m d r).heap id).isActive = true ↔
          (getNextProxy heap m d r).mgr.lastUsed = some id
        rw [post.2.2 id, post.1]
        simp [eq_comm]
      · intro q hq
        show q ∈ allPoolIds (getNextProxy heap m d r).mgr
        have : (getNextProxy heap m d r).mgr.lastUsed = some q := hq
        rw [post.1] at this
        injection this with this'
        rw [← this']
        exact post.2.1
  | addProxies ps =>
    constructor
    · intro id
      exact h.1 id
    · intro p hp
      have hmem := h.2 p hp
      simp only [allPoolIds, List.mem_append] at hmem
      simp only [stepOp, allPoolIds, ProxyManagerImpl.addProxies, List.mem_append]
      rcases hmem with hl | hr
      · exact .inl (.inl hl)
      · exact .inr hr
  | addResources rs =>
    constructor
    · intro id
      exact h.1 id
    · intro p hp
      have hmem := h.2 p hp
      simp only [allPoolIds, List.mem_append] at hmem
      simp only [stepOp, allPoolIds, ProxyManagerImpl.addResources, List.mem_append,
        List.map_append, List.flatten_append]
      rcases hmem with hl | hr
      · exact .inl hl
      · exact .inr (.inl hr)
  | disable id =>
    exact ⟨fun j => (disableProxy_isActive heap id j) ▸ h.1 j, h.2⟩
  | enable id =>
    exact ⟨fun j => (enableProxy_isActive heap id j) ▸ h.1 j, h.2⟩
  | update id r e now =>
    exact ⟨fun j => (updateProxy_isActive heap id j r e now) ▸ h.1 j, h.2⟩

theorem inv_runOps (σ : Sys) (ops : List MgrOp) (h : Inv σ) : Inv (runOps σ ops) := by
  induction ops generalizing σ with
  | nil => exact h
  | cons op rest ih => exact ih (stepOp σ op) (inv_step σ op h)

/-! ## Statistics lemmas -/

theorem update_counters_wrap (s : ProxyStats) (r e : Bool) (now : Nat) :
    (s.update r e now).totalRequests = (s.totalRequests + 1) % uintSize ∧
    (((s.update r e now).successCount = (s.successCount + 1) % uintSize ∧
      (s.update r e now).errorCount = s.errorCount) ∨
     ((s.update r e now).successCount = s.successCount ∧
      (s.update r e now).errorCount = (s.errorCount + 1) % uintSize)) := by
  cases r <;> cases e
  · exact ⟨rfl, .inr ⟨rfl, rfl⟩⟩
  · exact ⟨rfl, .inr ⟨rfl, rfl⟩⟩
  · exact ⟨rfl, .inl ⟨rfl, rfl⟩⟩
  · exact ⟨rfl, .inr ⟨rfl, rfl⟩⟩

theorem uintSize_pos : 0 < uintSize := by
  unfold uintSize
  positivity

/-- The stored (wrapped) `totalRequests` is congruent to the stored
(wrapped) `successCount + errorCount` modulo `2^64`, maintained by
every update. -/
theorem applyUpdates_sum_wrap (s : ProxyStats) (us : List (Bool × Bool × Nat))
    (h : s.totalRequests = (s.successCount + s.errorCount) % uintSize) :
    (applyUpdates s us).totalRequests =
      ((applyUpdates s us).successCount + (applyUpdates s us).errorCount) % uintSize := by
  induction us generalizing s with
  | nil => exact h
  | cons u rest ih =>
    refine ih (s.update u.1 u.2.1 u.2.2) ?_
    obtain ⟨ht, hc⟩ := update_counters_wrap s u.1 u.2.1 u.2.2
    rcases hc with ⟨h1, h2⟩ | ⟨h1, h2⟩
    · rw [ht, h1, h2, h, Nat.mod_add_mod, Nat.mod_add_mod]
      congr 1
      omega
    · rw [ht, h1, h2, h, Nat.mod_add_mod, Nat.add_mod_mod]
      congr 1

/-- Each update grows each stored counter by at most one. -/
theorem applyUpdates_counters_le (s : ProxyStats) (us : List (Bool × Bool × Nat)) :
    (applyUpdates s us).totalRequests ≤ s.totalRequests + us.length ∧
    (applyUpdates s us).successCount ≤ s.successCount + us.length ∧
    (applyUpdates s us).errorCount ≤ s.errorCount + us.length := by
  induction us generalizing s with
  | nil => exact ⟨le_refl _, le_refl _, le_refl _⟩
  | cons u rest ih =>
    have hstep : applyUpdates s (u :: rest) = applyUpdates (s.update u.1 u.2.1 u.2.2) rest :=
      rfl
    rw [hstep]
    obtain ⟨ht, hc⟩ := update_counters_wrap s u.1 u.2.1 u.2.2
    obtain ⟨i1, i2, i3⟩ := ih (s.update u.1 u.2.1 u.2.2)
    have hmt : (s.update u.1 u.2.1 u.2.2).totalRequests ≤ s.totalRequests + 1 :=
      ht ▸ Nat.le_trans (Nat.mod_le _ _) (le_refl _)
    rcases hc with ⟨h1, h2⟩ | ⟨h1, h2⟩
    · have hms : (s.update u.1 u.2.1 u.2.2).successCount ≤ s.successCount + 1 :=
        h1 ▸ Nat.mod_le _ _
      simp only [List.length_cons]
      exact ⟨by omega, by omega, by omega⟩
    · have hme : (s.update u.1 u.2.1 u.2.2).errorCount ≤ s.errorCount + 1 :=
        h2 ▸ Nat.mod_le _ _
      simp only [List.length_cons]
      exact ⟨by omega, by omega, by omega⟩

/-- As long as no counter can reach `2^64`, the wrapped counters are
monotone along a sequence of updates. -/
theorem applyUpdates_mono_of_room (s : ProxyStats) (us : List (Bool × Bool × Nat))
    (ht : s.totalRequests + us.length < uintSize)
    (hs : s.successCount + us.length < uintSize)
    (he : s.errorCount + us.length < uintSize) :
    s.totalRequests ≤ (applyUpdates s us).totalRequests ∧
    s.successCount ≤ (applyUpdates s us).successCount ∧
    s.errorCount ≤ (applyUpdates s us).errorCount := by
  induction us generalizing s with
  | nil => exact ⟨le_refl _, le_refl _, le_refl _⟩
  | cons u rest ih =>
    have hstep : applyUpdates s (u :: rest) = applyUpdates (s.update u.1 u.2.1 u.2.2) rest :=
      rfl
    rw [hstep]
    obtain ⟨h1, hc⟩ := update_counters_wrap s u.1 u.2.1 u.2.2
    simp only [List.length_cons] at ht hs he
    have ht1 : (s.update u.1 u.2.1 u.2.2).totalRequests = s.totalRequests + 1 := by
      rw [h1]
      exact Nat.mod_eq_of_lt (by omega)
    rcases hc with ⟨h2, h3⟩ | ⟨h2, h3⟩
    · have hs1 : (s.update u.1 u.2.1 u.2.2).successCount = s.successCount + 1 := by
        rw [h2]
        exact Nat.mod_eq_of_lt (by omega)
      obtain ⟨i1, i2, i3⟩ := ih (s.update u.1 u.2.1 u.2.2)
        (by rw [ht1]; omega) (by rw [hs1]; omega) (by rw [h3]; omega)
      exact ⟨by omega, by omega, by omega⟩
    · have he1 : (s.update u.1 u.2.1 u.2.2).errorCount = s.errorCount + 1 := by
        rw [h3]
        exact Nat.mod_eq_of_lt (by omega)
      obtain ⟨i1, i2, i3⟩ := ih (s.update u.1 u.2.1 u.2.2)
        (by rw [ht1]; omega) (by rw [h2]; omega) (by rw [he1]; omega)
      exact ⟨by omega, by omega, by omega⟩

/-- From an in-range `totalRequests`, `k` updates leave the stored
`totalRequests` at `(start + k) % 2^64` — every update bumps it by one
modulo `2^64`, whichever branch is taken. -/
theorem applyUpdates_totalRequests (s : ProxyStats) (hlt : s.totalRequests < uintSize)
    (us : List (Bool × Bool × Nat)) :
    (applyUpdates s us).totalRequests = (s.totalRequests + us.length) % uintSize := by
  induction us generalizing s with
  | nil =>
    simpa using (Nat.mod_eq_of_lt hlt).symm
  | cons u rest ih =>
    have hstep : applyUpdates s (u :: rest) = applyUpdates (s.update u.1 u.2.1 u.2.2) rest :=
      rfl
    rw [hstep]
    have h1 := (update_counters_wrap s u.1 u.2.1 u.2.2).1
    have h2 : (s.update u.1 u.2.1 u.2.2).totalRequests < uintSize :=
      h1 ▸ Nat.mod_lt _ uintSize_pos
    rw [ih _ h2, h1, Nat.mod_add_mod]
    simp only [List.length_cons]
    congr 1
    omega

/-! ## Round-robin selection lemmas -/

theorem iterateSelect_fst_cons (heap : Heap) (pool : List ProxyId) (s : SelectStrategy)
    (r : Nat) (rs : List Nat) :
    (iterateSelect heap pool s (r :: rs)).fst =
      (s.run heap pool r).1 :: (iterateSelect heap pool (s.run heap pool r).2 rs).fst := rfl

theorem rr_run_eq (heap : Heap) (P : List ProxyId) (hne : P.isEmpty = false) (b : Nat) :
    (⟨.roundRobinSelect, [], (b : Int)⟩ : SelectStrategy).run heap P 0 =
      (⟨some (P.getD ((b + 1) % P.length) 0), false⟩,
       ⟨.roundRobinSelect, [], (((b + 1) % P.length : Nat) : Int)⟩) := by
  simp [SelectStrategy.run, filteredGetProxies, hne]
  constructor <;> rfl

theorem rr_outs (heap : Heap) (P : List ProxyId) (hP : P ≠ []) :
    ∀ (k b : Nat), b < P.length →
      (iterateSelect heap P ⟨.roundRobinSelect, [], (b : Int)⟩ (List.replicate k 0)).fst =
        (List.range k).map
          (fun j => ⟨some (P.getD ((b + 1 + j) % P.length) 0), false⟩) := by
  have hne : P.isEmpty = false := by simpa [List.isEmpty_iff] using hP
  have hlen : 0 < P.length := List.length_pos.mpr hP
  intro k
  induction k with
  | zero => intro b hb; rfl
  | succ k ih =>
    intro b hb
    rw [List.replicate_succ, iterateSelect_fst_cons, rr_run_eq heap P hne b]
    have hb' : (b + 1) % P.length < P.length := Nat.mod_lt _ hlen
    rw [ih ((b + 1) % P.length) hb']
    rw [List.range_succ_eq_map]
    simp only [List.map_cons, List.map_map]
    refine List.cons_eq_cons.mpr ⟨?_, ?_⟩
    · norm_num
    · apply List.map_congr_left
      intro j hj
      simp only [Function.comp]
      congr 2
      rw [add_assoc, Nat.mod_add_mod]
      have harg : b + 1 + (1 + j) = b + 1 + j.succ := by omega
      rw [harg]

/-- The outcome stream of round-robin selection from the initial cursor
-1 over a fixed unfiltered pool: the j-th call (0-based) yields
`P[j % |P|]` and no call errors. -/
theorem rr_outs_start (heap : Heap) (P : List ProxyId) (hP : P ≠ []) (k : Nat) :
    (iterateSelect heap P ⟨.roundRobinSelect, [], -1⟩ (List.replicate k 0)).fst =
      (List.range k).map (fun j => ⟨some (P.getD (j % P.length) 0), false⟩) := by
  have hne : P.isEmpty = false := by simpa [List.isEmpty_iff] using hP
  have hlen : 0 < P.length := List.length_pos.mpr hP
  cases k with
  | zero => rfl
  | succ k =>
    have hrun : (⟨.roundRobinSelect, [], -1⟩ : SelectStrategy).run heap P 0 =
        (⟨some (P.getD 0 0), false⟩, ⟨.roundRobinSelect, [], ((0 : Nat) : Int)⟩) := by
      simp [SelectStrategy.run, filteredGetProxies, hne]
    rw [List.replicate_succ, iterateSelect_fst_cons, hrun, rr_outs heap P hP k 0 hlen]
    rw [List.range_succ_eq_map]
    simp only [List.map_cons, List.map_map]
    refine List.cons_eq_cons.mpr ⟨?_, ?_⟩
    · rw [Nat.zero_mod]
    · apply List.map_congr_left
      intro j hj
      simp only [Function.comp]
      congr 2
      have harg : 0 + 1 + j = j.succ := by omega
      rw [harg]

/-! ## Claim theorems -/

/-- C3 (counterexample): the counters are Go `uint`s and wrap modulo
`2^64`, so they are not monotonically non-decreasing over every update
sequence: after the one-element prefix of a sequence of `2^64`
error-outcome updates, `totalRequests` is 1, but after the full
sequence it has wrapped to 0. -/
theorem c3_monotonicity_counterexample :
    ¬ ((applyUpdates {} [((true : Bool), (true : Bool), (0 : Nat))]).totalRequests ≤
       (applyUpdates {} ([((true : Bool), (true : Bool), (0 : Nat))] ++
         List.replicate (2 ^ 64 - 1) (true, true, 0))).totalRequests) := by
  intro hle
  have hpre : (applyUpdates {} [((true : Bool), (true : Bool), (0 : Nat))]).totalRequests
      = 1 := rfl
  have hcat : [((true : Bool), (true : Bool), (0 : Nat))] ++
      List.replicate (2 ^ 64 - 1) (true, true, 0) =
      List.replicate (2 ^ 64) ((true : Bool), (true : Bool), (0 : Nat)) := by
    rw [List.singleton_append, ← List.replicate_succ]
    norm_num
  have hfull : (applyUpdates {}
      (List.replicate (2 ^ 64) ((true : Bool), (true : Bool), (0 : Nat)))).totalRequests
      = 0 := by
    rw [applyUpdates_totalRequests {} uintSize_pos, List.length_replicate]
    show (0 + 2 ^ 64) % uintSize = 0
    rw [Nat.zero_add]
    unfold uintSize
    exact Nat.mod_self _
  rw [hcat, hpre, hfull] at hle
  exact absurd hle (by norm_num)

/-- C3 (amended): every `ProxyStats.Update` increments `totalRequests`
by exactly one modulo `2^64` (the width of Go `uint`) and exactly one
of `successCount`/`errorCount` by exactly one modulo `2^64`; starting
from the zero state, `totalRequests = (successCount + errorCount) %
2^64` holds after every update sequence; and all three counters are
monotonically non-decreasing along any sequence of fewer than `2^64`
updates (every prefix's counters are bounded by the full sequence's
counters). -/
theorem c3_stats_invariant_wrap :
    (∀ (s : ProxyStats) (r e : Bool) (now : Nat),
      (s.update r e now).totalRequests = (s.totalRequests + 1) % uintSize ∧
      (((s.update r e now).successCount = (s.successCount + 1) % uintSize ∧
        (s.update r e now).errorCount = s.errorCount) ∨
       ((s.update r e now).successCount = s.successCount ∧
        (s.update r e now).errorCount = (s.errorCount + 1) % uintSize))) ∧
    (∀ us : List (Bool × Bool × Nat),
      (applyUpdates {} us).totalRequests =
        ((applyUpdates {} us).successCount + (applyUpdates {} us).errorCount) % uintSize) ∧
    (∀ pre suf : List (Bool × Bool × Nat), (pre ++ suf).length < uintSize →
      (applyUpdates {} pre).totalRequests ≤ (applyUpdates {} (pre ++ suf)).totalRequests ∧
      (applyUpdates {} pre).successCount ≤ (applyUpdates {} (pre ++ suf)).successCount ∧
      (applyUpdates {} pre).errorCount ≤ (applyUpdates {} (pre ++ suf)).errorCount) := by
  refine ⟨update_counters_wrap,
    fun us => applyUpdates_sum_wrap {} us (by simp),
    fun pre suf hlen => ?_⟩
  have happ : applyUpdates {} (pre ++ suf) = applyUpdates (applyUpdates {} pre) suf := by
    simp [applyUpdates]
  rw [happ]
  obtain ⟨b1, b2, b3⟩ := applyUpdates_counters_le ({} : ProxyStats) pre
  simp only [List.length_append] at hlen
  refine applyUpdates_mono_of_room (applyUpdates {} pre) suf ?_ ?_ ?_
  · simp only [show ({} : ProxyStats).totalRequests = 0 from rfl] at b1
    omega
  · simp only [show ({} : ProxyStats).successCount = 0 from rfl] at b2
    omega
  · simp only [show ({} : ProxyStats).errorCount = 0 from rfl] at b3
    omega

/-- C9: `Proxy.Update` (which delegates to `ProxyStats.Update`)
increments the success counter (modulo `2^64`, the width of Go `uint`)
exactly when the response is non-nil and the error is nil, and
otherwise increments the error counter — in particular a nil response
with a nil error, and a non-nil response with a non-nil error, both
count as errors. -/
theorem c9_success_iff_response_and_no_error (p : ProxyState) (r e : Bool) (now : Nat) :
    (p.update r e now).stats.successCount =
      (if r = true ∧ e = false then (p.stats.successCount + 1) % uintSize
       else p.stats.successCount) ∧
    (p.update r e now).stats.errorCount =
      (if r = true ∧ e = false then p.stats.errorCount
       else (p.stats.errorCount + 1) % uintSize) := by
  cases r <;> cases e <;> simp [ProxyState.update, ProxyStats.update]

/-- C4: over two arbitrary sub-strategies, `CompositeRotation` with OR
logic is Boolean disjunction, with AND logic Boolean conjunction, and
with zero sub-strategies it is constant false regardless of logic. -/
theorem c4_composite_algebra (A B : RotationStrategy) (p : ProxyState)
    (logic : CompositeRotationLogicType) :
    shouldRotate (.composite .RotationLogicOR [A, B]) p =
      (shouldRotate A p || shouldRotate B p) ∧
    shouldRotate (.composite .RotationLogicAND [A, B]) p =
      (shouldRotate A p && shouldRotate B p) ∧
    shouldRotate (.composite logic []) p = false := by
  refine ⟨?_, ?_, ?_⟩
  · cases hA : shouldRotate A p <;> cases hB : shouldRotate B p <;>
      simp [shouldRotate, compositeLoop, hA, hB]
  · cases hA : shouldRotate A p <;> cases hB : shouldRotate B p <;>
      simp [shouldRotate, compositeLoop, hA, hB]
  · simp [shouldRotate]

/-- C5: against a fixed, unfiltered pool `P` with `|P| ≥ 1`, the i-th
`RoundRobinSelect.Select()` call (1-based, cursor starting at -1)
returns `P[(i-1) % |P|]` with no error — in particular the first call
returns `P[0]` — and `|P|` consecutive calls return exactly `P` in pool
order (each proxy once), after which the pattern repeats. -/
theorem c5_round_robin_order (heap : Heap) (P : List ProxyId) (k i : Nat)
    (hP : P ≠ []) (hi : 1 ≤ i) (hik : i ≤ k) :
    (iterateSelect heap P ⟨.roundRobinSelect, [], -1⟩ (List.replicate k 0)).fst.getD (i - 1)
        ⟨none, true⟩ = ⟨some (P.getD ((i - 1) % P.length) 0), false⟩ ∧
    (iterateSelect heap P ⟨.roundRobinSelect, [], -1⟩ (List.replicate P.length 0)).fst =
      P.map fun p => ⟨some p, false⟩ := by
  constructor
  · rw [rr_outs_start heap P hP k]
    have hlt : i - 1 <
        ((List.range k).map
          (fun j => (⟨some (P.getD (j % P.length) 0), false⟩ : SelectOutcome))).length := by
      simp
      omega
    rw [List.getD_eq_getElem _ _ hlt]
    simp
  · rw [rr_outs_start heap P hP P.length]
    apply List.ext_getElem (by simp)
    intro n h1 h2
    simp only [List.getElem_map, List.getElem_range]
    have hn : n < P.length := by simpa using h2
    rw [Nat.mod_eq_of_lt hn, List.getD_eq_getElem _ _ hn]

/-- C6: a `Select()` call of either built-in strategy returns the
failed-select error exactly when the provider's filtered proxy list is
empty at call time; on a non-empty filtered list it returns a member of
that list with no error. -/
theorem c6_select_error_iff_empty (heap : Heap) (s : SelectStrategy)
    (pool : List ProxyId) (rand : Nat) :
    ((s.run heap pool rand).fst.isErr = true ↔
      filteredGetProxies heap s.filters pool = []) ∧
    (filteredGetProxies heap s.filters pool ≠ [] →
      ∃ p, (s.run heap pool rand).fst = ⟨some p, false⟩ ∧
        p ∈ filteredGetProxies heap s.filters pool) := by
  by_cases h : filteredGetProxies heap s.filters pool = []
  · rw [run_empty s heap pool rand h]
    exact ⟨by simp [h], fun hc => absurd h hc⟩
  · obtain ⟨p, s', hrun, hmem⟩ := run_nonempty s heap pool rand h
    rw [hrun]
    exact ⟨by simp [h], fun _ => ⟨p, rfl, hmem⟩⟩

/-- C7: a `ResourceConfig` with normalized domain `"example.com"` and
subdomains included matches `"example.com"`, `"api.example.com"` and
`"https://example.com/"`; with subdomains excluded it matches
`"example.com"` but not `"api.example.com"`. -/
theorem c7_compare_domain_examples :
    compareDomain (exampleComResource false) "example.com" = true ∧
    compareDomain (exampleComResource false) "api.example.com" = true ∧
    compareDomain (exampleComResource false) "https://example.com/" = true ∧
    compareDomain (exampleComResource true) "example.com" = true ∧
    compareDomain (exampleComResource true) "api.example.com" = false := by
  decide

/-- C8 (counterexample): the claim "for an empty resource domain,
`CompareDomain` returns true only for candidates that normalize to the
empty string" is false on the code: the suffix rule compares against
`"." + "" = "."`, so the candidate `"."` — whose normalization `"."`
is not empty — matches a subdomains-included empty-domain resource. -/
theorem c8_empty_domain_counterexample :
    compareDomain (emptyDomainResource false) "." = true ∧
    normalizeDomain "." ≠ "" := by
  decide

/-- C8 (amended): the empty string normalizes to the empty string, and
for a resource whose normalized domain is empty, `CompareDomain`
returns true exactly for candidates that normalize to the empty string
or — when subdomains are included — whose normalized form ends with a
period (the suffix rule checks the suffix `"." + "" = "."`). -/
theorem c8_empty_domain_matching (noSub : Bool) (c : String) :
    normalizeDomain "" = "" ∧
    compareDomain (emptyDomainResource noSub) c =
      ((normalizeDomain c == "") ||
        (!noSub && hasSuffixChars (normalizeDomain c).data ['.'])) := by
  refine ⟨rfl, ?_⟩
  have hdom : (emptyDomainResource noSub).domain = "" := rfl
  have hflag : (emptyDomainResource noSub).notIgnoreSubdomains = noSub := rfl
  unfold compareDomain
  rw [hdom, hflag]
  by_cases hc : normalizeDomain c = ""
  · rw [if_pos hc]
    have hbeq : (normalizeDomain c == "") = true := by simpa using hc
    rw [hbeq, Bool.true_or]
  · rw [if_neg hc]
    have hbeq : (normalizeDomain c == "") = false := by simpa using hc
    rw [hbeq, Bool.false_or]
    have hnil : ('.' :: ("" : String).data) = ['.'] := rfl
    rw [hnil]
    cases hb : (!noSub && hasSuffixChars (normalizeDomain c).data ['.']) <;> simp [hb]

/-- C10: whenever `GetNextProxy` returns a non-nil error (empty pool or
selection failure; the defensive nil-proxy-without-error branch is
unreachable for the repository's strategies), the manager and the heap
are exactly as before the call: `lastUsed`, every proxy's flags and
every proxy's statistics are unchanged. -/
theorem c10_error_leaves_state_unchanged (heap : Heap) (m : ProxyManagerImpl)
    (domain : String) (rand : Nat) (e : GetNextErr)
    (h : (getNextProxy heap m domain rand).result = .error e) :
    (getNextProxy heap m domain rand).mgr = m ∧
    (getNextProxy heap m domain rand).heap = heap := by
  rcases getNextProxy_shape heap m domain rand with
    ⟨e', b, hE⟩ | ⟨p, hR, hlu⟩ | ⟨p, m', hS, _⟩
  · rw [hE]
    exact ⟨rfl, rfl⟩
  · rw [hR] at h
    simp at h
  · rw [hS] at h
    simp at h

/-- C2: in any state reachable by sequential API calls from a freshly
constructed manager, if `lastUsed` is non-nil and the applicable
rotation strategy (the matched resource's if the domain matches, else
the global one) answers "do not rotate" on it, then `GetNextProxy`
returns `lastUsed` with a nil error, invokes no selection strategy
(`selectCalled = false`), and leaves the manager (its `lastUsed`
pointer included) and every proxy's flags and statistics unchanged. -/
theorem c2_no_rotation_reuses_last_used (heap0 : Heap) (m0 : ProxyManagerImpl)
    (ops : List MgrOp) (domain : String) (rand : Nat) (lu : ProxyId)
    (h0 : ∀ id, (heap0 id).isActive = false) (h1 : m0.lastUsed = none)
    (hLast : (runOps ⟨heap0, m0⟩ ops).mgr.lastUsed = some lu)
    (hRot : shouldRotate (applicableRotation (runOps ⟨heap0, m0⟩ ops).mgr domain)
      ((runOps ⟨heap0, m0⟩ ops).heap lu) = false) :
    getNextProxy (runOps ⟨heap0, m0⟩ ops).heap (runOps ⟨heap0, m0⟩ ops).mgr domain rand =
      ⟨.ok lu, (runOps ⟨heap0, m0⟩ ops).mgr, (runOps ⟨heap0, m0⟩ ops).heap, false⟩ := by
  have hInv : Inv (runOps ⟨heap0, m0⟩ ops) :=
    inv_runOps ⟨heap0, m0⟩ ops (inv_of_start heap0 m0 h0 h1)
  have hmem := hInv.2 lu hLast
  have hne : ((runOps ⟨heap0, m0⟩ ops).mgr.proxies.isEmpty &&
      (runOps ⟨heap0, m0⟩ ops).mgr.resources.isEmpty) = false := by
    rcases List.mem_append.mp hmem with hl | hr
    · have hp : (runOps ⟨heap0, m0⟩ ops).mgr.proxies.isEmpty = false := by
        simpa [List.isEmpty_iff] using List.ne_nil_of_mem hl
      simp [hp]
    · have hrs : (runOps ⟨heap0, m0⟩ ops).mgr.resources ≠ [] := by
        rcases List.mem_flatten.mp hr with ⟨l, hlmem, _⟩
        rcases List.mem_map.mp hlmem with ⟨rc, hrc, _⟩
        exact List.ne_nil_of_mem hrc
      have hp : (runOps ⟨heap0, m0⟩ ops).mgr.resources.isEmpty = false := by
        simpa [List.isEmpty_iff] using hrs
      simp [hp]
  cases hfr : findResource (runOps ⟨heap0, m0⟩ ops).mgr.resources domain with
  | none =>
    have hrot' : shouldRotate (runOps ⟨heap0, m0⟩ ops).mgr.rotationStrategy
        ((runOps ⟨heap0, m0⟩ ops).heap lu) = false := by
      have happ : applicableRotation (runOps ⟨heap0, m0⟩ ops).mgr domain =
          (runOps ⟨heap0, m0⟩ ops).mgr.rotationStrategy := by
        unfold applicableRotation
        rw [hfr]
      rw [← happ]
      exact hRot
    rw [getNextProxy_of_global _ _ domain rand hne hfr,
      reuseOrSelect_of_reuse _ _ rand _ none lu hLast hrot']
  | some pr =>
    obtain ⟨i, rc⟩ := pr
    have hrot' : shouldRotate rc.rotationStrategy
        ((runOps ⟨heap0, m0⟩ ops).heap lu) = false := by
      have happ : applicableRotation (runOps ⟨heap0, m0⟩ ops).mgr domain =
          rc.rotationStrategy := by
        unfold applicableRotation
        rw [hfr]
      rw [← happ]
      exact hRot
    rw [getNextProxy_of_resource _ _ domain rand i rc hne hfr,
      reuseOrSelect_of_reuse _ _ rand _ (some (i, rc)) lu hLast hrot']

/-- C1: starting from a manager whose proxies are all inactive (and
`lastUsed` nil, as every freshly constructed manager), after any
sequence of sequential `GetNextProxy`/`AddProxies`/`AddResources`/
`Disable`/`Enable`/`Update` calls, a `GetNextProxy` call that returns a
proxy `p` with a nil error leaves exactly one proxy of the global pool
and all resource pools active — namely `p` itself — and `LastUsed()`
subsequently returns `p`. -/
theorem c1_exactly_one_active (heap0 : Heap) (m0 : ProxyManagerImpl) (ops : List MgrOp)
    (domain : String) (rand : Nat) (p : ProxyId)
    (h0 : ∀ id, (heap0 id).isActive = false) (h1 : m0.lastUsed = none)
    (hOk : (getNextProxy (runOps ⟨heap0, m0⟩ ops).heap (runOps ⟨heap0, m0⟩ ops).mgr
      domain rand).result = .ok p) :
    p ∈ allPoolIds (getNextProxy (runOps ⟨heap0, m0⟩ ops).heap
      (runOps ⟨heap0, m0⟩ ops).mgr domain rand).mgr ∧
    (∀ q, q ∈ allPoolIds (getNextProxy (runOps ⟨heap0, m0⟩ ops).heap
        (runOps ⟨heap0, m0⟩ ops).mgr domain rand).mgr →
      (((getNextProxy (runOps ⟨heap0, m0⟩ ops).heap
        (runOps ⟨heap0, m0⟩ ops).mgr domain rand).heap q).isActive = true ↔ q = p)) ∧
    (getNextProxy (runOps ⟨heap0, m0⟩ ops).heap
      (runOps ⟨heap0, m0⟩ ops).mgr domain rand).mgr.LastUsed = some p := by
  have hInv : Inv (runOps ⟨heap0, m0⟩ ops) :=
    inv_runOps ⟨heap0, m0⟩ ops (inv_of_start heap0 m0 h0 h1)
  obtain ⟨hl, hm, ha⟩ :=
    getNext_ok_post (runOps ⟨heap0, m0⟩ ops).heap (runOps ⟨heap0, m0⟩ ops).mgr hInv
      domain rand p hOk
  exact ⟨hm, fun q _ => ha q, hl⟩

/-! ## Witnesses -/

/-- Witness for C1: on a fresh one-proxy manager, the first
`GetNextProxy` succeeds with proxy 0 and `LastUsed()` returns it. -/
theorem c1_exactly_one_active_witness :
    (∀ id, (heapW id).isActive = false) ∧ mW.lastUsed = none ∧
    (getNextProxy (runOps ⟨heapW, mW⟩ []).heap (runOps ⟨heapW, mW⟩ []).mgr
      "a.com" 0).result = .ok 0 ∧
    (getNextProxy (runOps ⟨heapW, mW⟩ []).heap (runOps ⟨heapW, mW⟩ []).mgr
      "a.com" 0).mgr.LastUsed = some 0 :=
  ⟨fun _ => rfl, rfl, rfl,
    (c1_exactly_one_active heapW mW [] "a.com" 0 0 (fun _ => rfl) rfl rfl).2.2⟩

/-- Witness for C2: after one successful decision, a second call with a
non-rotating applicable strategy returns the same proxy without
selecting and without touching any state. -/
theorem c2_no_rotation_reuses_last_used_witness :
    (∀ id, (heapW id).isActive = false) ∧ mW.lastUsed = none ∧
    (runOps ⟨heapW, mW⟩ [.getNext "a.com" 0]).mgr.lastUsed = some 0 ∧
    shouldRotate (applicableRotation (runOps ⟨heapW, mW⟩ [.getNext "a.com" 0]).mgr "a.com")
      ((runOps ⟨heapW, mW⟩ [.getNext "a.com" 0]).heap 0) = false ∧
    getNextProxy (runOps ⟨heapW, mW⟩ [.getNext "a.com" 0]).heap
        (runOps ⟨heapW, mW⟩ [.getNext "a.com" 0]).mgr "a.com" 1 =
      ⟨.ok 0, (runOps ⟨heapW, mW⟩ [.getNext "a.com" 0]).mgr,
        (runOps ⟨heapW, mW⟩ [.getNext "a.com" 0]).heap, false⟩ :=
  ⟨fun _ => rfl, rfl, rfl, rfl,
    c2_no_rotation_reuses_last_used heapW mW [.getNext "a.com" 0] "a.com" 1 0
      (fun _ => rfl) rfl rfl rfl⟩

/-- Witness for C5: over the pool `[5, 7]`, the third round-robin call
returns `5` (index `(3-1) % 2 = 0`) and two calls return the pool in
order. -/
theorem c5_round_robin_order_witness :
    (([5, 7] : List ProxyId) ≠ [] ∧ (1 : Nat) ≤ 3 ∧ (3 : Nat) ≤ 3) ∧
    ((iterateSelect heapW [5, 7] ⟨.roundRobinSelect, [], -1⟩
        (List.replicate 3 0)).fst.getD (3 - 1) ⟨none, true⟩ =
      ⟨some (([5, 7] : List ProxyId).getD ((3 - 1) % ([5, 7] : List ProxyId).length) 0),
        false⟩ ∧
    (iterateSelect heapW [5, 7] ⟨.roundRobinSelect, [], -1⟩
        (List.replicate ([5, 7] : List ProxyId).length 0)).fst =
      ([5, 7] : List ProxyId).map fun p => ⟨some p, false⟩) :=
  ⟨⟨by decide, by decide, by decide⟩,
    c5_round_robin_order heapW [5, 7] 3 3 (by decide) (by decide) (by decide)⟩

/-- Witness for C6: on the non-empty (trivially filtered) pool `[3]`,
`RandomSelect` returns a member with no error. -/
theorem c6_select_error_iff_empty_witness :
    filteredGetProxies heapW (⟨.randomSelect, [], -1⟩ : SelectStrategy).filters [3] ≠ [] ∧
    ∃ p, ((⟨.randomSelect, [], -1⟩ : SelectStrategy).run heapW [3] 0).fst =
        ⟨some p, false⟩ ∧
      p ∈ filteredGetProxies heapW (⟨.randomSelect, [], -1⟩ : SelectStrategy).filters [3] :=
  ⟨by decide,
    (c6_select_error_iff_empty heapW ⟨.randomSelect, [], -1⟩ [3] 0).2 (by decide)⟩

/-- Witness for C3 (amended): a two-update sequence (one success, one
error) is far below `2^64`, and the one-update prefix's counters are
bounded by the full sequence's counters. -/
theorem c3_stats_invariant_wrap_witness :
    (([((true : Bool), (false : Bool), (0 : Nat))] ++
      [((true : Bool), (true : Bool), (0 : Nat))]).length < uintSize) ∧
    ((applyUpdates {} [((true : Bool), (false : Bool), (0 : Nat))]).totalRequests ≤
      (applyUpdates {} ([((true : Bool), (false : Bool), (0 : Nat))] ++
        [((true : Bool), (true : Bool), (0 : Nat))])).totalRequests ∧
     (applyUpdates {} [((true : Bool), (false : Bool), (0 : Nat))]).successCount ≤
      (applyUpdates {} ([((true : Bool), (false : Bool), (0 : Nat))] ++
        [((true : Bool), (true : Bool), (0 : Nat))])).successCount ∧
     (applyUpdates {} [((true : Bool), (false : Bool), (0 : Nat))]).errorCount ≤
      (applyUpdates {} ([((true : Bool), (false : Bool), (0 : Nat))] ++
        [((true : Bool), (true : Bool), (0 : Nat))])).errorCount) :=
  ⟨by decide,
   c3_stats_invariant_wrap.2.2 [((true : Bool), (false : Bool), (0 : Nat))]
     [((true : Bool), (true : Bool), (0 : Nat))] (by decide)⟩

/-- Witness for C10: on a manager with no proxies and no resources,
`GetNextProxy` fails with the empty-pool error and changes nothing. -/
theorem c10_error_leaves_state_unchanged_witness :
    (getNextProxy heapW mEmpty "a.com" 0).result = .error .emptyProxyList ∧
    (getNextProxy heapW mEmpty "a.com" 0).mgr = mEmpty ∧
    (getNextProxy heapW mEmpty "a.com" 0).heap = heapW :=
  ⟨rfl, c10_error_leaves_state_unchanged heapW mEmpty "a.com" 0 .emptyProxyList rfl⟩

end Proxym
